import Mathlib

/-!
# Verification of the AbaqusGuard job-lifecycle detection engine

A shallow embedding of the core of the repository: the `.sta` status parser
(`src/core/progress_parser.py`), the notification deduper
(`src/core/notify_dedupe.py`), the job data model (`src/models/job.py`) and
the per-cycle scan algorithm of the job detector
(`src/core/job_detector.py`).

Modelling conventions:
* Python `float` wall-clock times are modelled as `Int` seconds; the code
  only ever compares and subtracts them.
* Python dicts are association lists (`List (String × τ)`); Python sets are
  `List String` with order-preserving set operations (iteration order of
  Python sets is unspecified, the embedding determinizes it).
* Filesystem accesses are fed in through a `DirFs` snapshot: one field per
  distinct system call the scan performs, so that two calls racing against
  an external writer may observe different worlds.
* Fallible calls return `Except PyErr`/`Option PyErr`; a raised Python
  exception is an error value, and the mutated-so-far state is kept next to
  it (Python mutations persist when an exception propagates).
-/

namespace AbaqusGuard

/-! ## Python string primitives -/

/-- Character-list prefix test (used to implement Python's `in` on strings). -/
def isPrefixCh : List Char → List Char → Bool
  | [], _ => true
  | _ :: _, [] => false
  | a :: as, b :: bs => a == b && isPrefixCh as bs

/-- Substring containment on character lists. -/
def containsSubCh (n : List Char) : List Char → Bool
  | [] => n.isEmpty
  | c :: rest => isPrefixCh n (c :: rest) || containsSubCh n rest

/-- Python's `needle in hay` on strings. -/
def containsSub (needle hay : String) : Bool :=
  containsSubCh needle.toList hay.toList

/-- Drop leading whitespace characters. -/
def dropWhileWs : List Char → List Char
  | [] => []
  | c :: cs => if c.isWhitespace then dropWhileWs cs else c :: cs

/-- Python's `str.strip()` (ASCII whitespace suffices for the `.sta` format). -/
def pyStrip (s : String) : String :=
  ⟨(dropWhileWs (dropWhileWs s.data).reverse).reverse⟩

/-- Python's `str.upper()`. -/
def pyUpper (s : String) : String := ⟨s.data.map Char.toUpper⟩

/-- Python's `str.lower()`. -/
def pyLower (s : String) : String := ⟨s.data.map Char.toLower⟩

/-! ## `StaParser` status extraction (`src/core/progress_parser.py`) -/

/-- `StaParser.STATUS_SUCCESS`. -/
def STATUS_SUCCESS : String := "THE ANALYSIS HAS COMPLETED SUCCESSFULLY"

/-- `StaParser.STATUS_NOT_COMPLETED`. -/
def STATUS_NOT_COMPLETED : String := "THE ANALYSIS HAS NOT BEEN COMPLETED"

/-- `StaParser.STATUS_ERROR`. -/
def STATUS_ERROR : String := "THE ANALYSIS HAS BEEN TERMINATED DUE TO AN ERROR"

/-- The success test the scan applies to one raw line
(`STATUS_SUCCESS in raw.strip().upper()`). -/
def hasSuccessPhrase (raw : String) : Bool :=
  containsSub STATUS_SUCCESS (pyUpper (pyStrip raw))

/-- The failure test the scan applies to one raw line. -/
def hasFailPhrase (raw : String) : Bool :=
  containsSub STATUS_NOT_COMPLETED (pyUpper (pyStrip raw)) ||
    containsSub STATUS_ERROR (pyUpper (pyStrip raw))

/-- The backward keyword scan inside `StaParser._get_status_from_lines`:
given the lines already reversed, skip blank lines, return on the first
line holding a terminal phrase. -/
def statusScanRev : List String → Option String
  | [] => none
  | raw :: rest =>
    if pyStrip raw = "" then statusScanRev rest
    else if hasSuccessPhrase raw then some "success"
    else if hasFailPhrase raw then some "failed"
    else statusScanRev rest

/-- `StaParser._get_status_from_lines`. -/
def getStatusFromLines (lines : List String) : String :=
  match statusScanRev lines.reverse with
  | some s => s
  | none => if lines.any (fun l => pyStrip l != "") then "running" else "unknown"

/-- The status component of `StaParser.parse` / `StaParser.get_status_from_file`:
`none` models a missing (or unreadable, the read is inside the `try`) file,
`some lines` the file content as returned by `readlines`. -/
def getStatusFromFile : Option (List String) → String
  | none => "unknown"
  | some [] => "unknown"
  | some (l :: ls) => getStatusFromLines (l :: ls)

/-! ## `NotificationDeduper` (`src/core/notify_dedupe.py`) -/

/-- The TTL-based notification deduper. `seen` is the `_seen` dict. -/
structure NotificationDeduper where
  ttlSeconds : Int := 3600
  seen : List (String × Int) := []
deriving DecidableEq

/-- Python dict assignment `d[k] = v`: replace an existing binding in place,
else append. -/
def dictAssign (d : List (String × Int)) (k : String) (v : Int) :
    List (String × Int) :=
  if d.any (fun kt => kt.1 == k) then
    d.map (fun kt => if kt.1 == k then (k, v) else kt)
  else d ++ [(k, v)]

namespace NotificationDeduper

/-- `NotificationDeduper._cleanup`. -/
def cleanup (d : NotificationDeduper) (now : Int) : NotificationDeduper :=
  if d.ttlSeconds ≤ 0 then { d with seen := [] }
  else
    { d with
      seen := d.seen.filter (fun kt => decide (now - d.ttlSeconds ≤ kt.2)) }

/-- `NotificationDeduper.should_send`: returns the decision and the updated
deduper. -/
def shouldSend (d : NotificationDeduper) (now : Int) (key : String) :
    Bool × NotificationDeduper :=
  if key = "" then (true, d)
  else
    let d := d.cleanup now
    match d.seen.lookup key with
    | some last =>
      if now - last < d.ttlSeconds then (false, d)
      else (true, { d with seen := dictAssign d.seen key now })
    | none => (true, { d with seen := dictAssign d.seen key now })

end NotificationDeduper

/-- `get_notification_deduper`: the module-level `_deduper` global is passed
and returned explicitly. -/
def getNotificationDeduper (ttlSeconds : Int) :
    Option NotificationDeduper → NotificationDeduper × Option NotificationDeduper
  | none =>
    let d : NotificationDeduper := { ttlSeconds := ttlSeconds, seen := [] }
    (d, some d)
  | some d => (d, some d)

/-! ## Job data model (`src/models/job.py`) -/

/-- The `JobStatus` enum. Its only members are the four below; in
particular no `FINISHING` member is declared. -/
inductive JobStatus where
  | RUNNING
  | SUCCESS
  | FAILED
  | ABORTED
deriving DecidableEq

/-- Python attribute lookup of an enum member on the `JobStatus` class.
Looking up a name that is not a member raises `AttributeError`, modelled as
`none`. `job_detector.py` line 183 performs `JobStatus.FINISHING`, which is
not declared in `models/job.py`. -/
def JobStatus.member : String → Option JobStatus
  | "RUNNING" => some .RUNNING
  | "SUCCESS" => some .SUCCESS
  | "FAILED" => some .FAILED
  | "ABORTED" => some .ABORTED
  | _ => none

/-- The `JobInfo` dataclass. Wall-clock datetimes are `Int` seconds.
`endDetectedTime` is not a declared dataclass field: `job_detector.py` sets
it as a dynamic attribute; it is carried here as an optional field whose
`none` default models "never assigned". -/
structure JobInfo where
  name : String
  workDir : String
  computer : String
  startTime : Int
  endTime : Option Int := none
  status : JobStatus := .RUNNING
  result : String := ""
  odbSizeMb : Int := 0
  totalTime : Int := 0
  frequency : Int := 0
  stepTime : Int := 0
  incTime : Int := 0
  step : Nat := 0
  increment : Nat := 0
  isOrphan : Bool := false
  totalStepTime : Int := 0
  endDetectedTime : Option Int := none
deriving DecidableEq

/-- `JobInfo.is_completed`. -/
def JobInfo.isCompleted (j : JobInfo) : Bool :=
  j.status == .SUCCESS || j.status == .FAILED || j.status == .ABORTED

/-- `JobInfo.mark_completed`. -/
def JobInfo.markCompleted (j : JobInfo) (now : Int) (status : JobStatus)
    (result : String) : JobInfo :=
  let j := { j with status := status, endTime := some now }
  if result == "" then j else { j with result := result }

/-! ## Filesystem and configuration inputs for one scan cycle -/

/-- One entry of a directory listing, as `Path.iterdir` yields it.
`ext` carries the leading dot (Python `Path.suffix`). -/
structure FsEntry where
  stem : String
  ext : String
  isFile : Bool
deriving DecidableEq

/-- The numeric progress fields extracted by `StaParser.parse` from the last
data line. Their extraction involves Python float parsing of free-form
text and is not re-implemented; the scan receives them as an oracle, which
is sound because no verified claim depends on their values. -/
structure ProgressData where
  step : Nat := 0
  increment : Nat := 0
  totalTime : Int := 0
  stepTime : Int := 0
  incTime : Int := 0
deriving DecidableEq

/-- Snapshot of what the filesystem and the process probe answer to each
distinct call the scan of one directory makes. Separate fields model
separate system calls, so the snapshot may be internally inconsistent the
way a racing filesystem is. `lckCtime name = none` means `stat` on
`<name>.lck` raises `OSError`; `staLines name = none` means `<name>.sta` is
missing (or unreadable — the read sits inside `StaParser.parse`'s `try`). -/
structure DirFs where
  dirExists : Bool := true
  entries : List FsEntry := []
  lckExists : String → Bool := fun _ => false
  lckCtime : String → Option Int := fun _ => none
  staLines : String → Option (List String) := fun _ => none
  progressData : String → ProgressData := fun _ => {}
  odbSizeMb : String → Option Int := fun _ => none
  totalStepTime : String → Int := fun _ => 0
  abaqusRunning : Bool := true

/-- The configuration values the detector consumes (`src/config/settings.py`). -/
structure Config where
  enableProcessDetection : Bool := true
  lckGracePeriod : Int := 60
  jobEndConfirmPeriod : Int := 60
deriving DecidableEq

/-- The Python exceptions the scan can raise. -/
inductive PyErr where
  | attributeError (name : String)
  | osError (path : String)
  | keyError (key : String)
deriving DecidableEq

/-! ## Detector state (`JobDetector.__init__`) -/

/-- Per-directory detector state: `running_jobs[d]`, `finishing_jobs[d]`
and `ignored_lck[d]`. -/
structure DirState where
  runningJobs : List (String × JobInfo) := []
  finishingJobs : List (String × JobInfo) := []
  ignoredLck : List String := []
deriving DecidableEq

/-- Whole-detector state: the per-directory dicts (one entry per monitored
directory) and the shared `completed_jobs` list. -/
structure DetectorState where
  dirs : List (String × DirState) := []
  completedJobs : List JobInfo := []
deriving DecidableEq

/-! ## Set and dict operations -/

/-- Python set difference `a - b`, determinized to keep `a`'s order. -/
def ldiff (a b : List String) : List String :=
  a.filter (fun x => decide (x ∉ b))

/-- Python set intersection `a & b`, determinized to keep `a`'s order. -/
def linter (a b : List String) : List String :=
  a.filter (fun x => decide (x ∈ b))

/-- Python `set.add`. -/
def laddSet (a : List String) (x : String) : List String :=
  if x ∈ a then a else a ++ [x]

/-- Python duplicate removal when a list of names is poured into a set. -/
def pyDedupAux (seen : List String) : List String → List String
  | [] => []
  | x :: xs =>
    if x ∈ seen then pyDedupAux seen xs else x :: pyDedupAux (x :: seen) xs

/-- First-occurrence deduplication. -/
def pyDedup (l : List String) : List String := pyDedupAux [] l

/-- Keys of a Python dict, in insertion order. -/
def dictKeys (d : List (String × JobInfo)) : List String := d.map (·.1)

/-- Python `dict.pop(k, None)`: the removed value (if any) and the remaining
dict. -/
def dictPop (d : List (String × JobInfo)) (k : String) :
    Option JobInfo × List (String × JobInfo) :=
  (d.lookup k, d.filter (fun kv => kv.1 != k))

/-- Python dict assignment `d[k] = v` for job dicts. -/
def dictSet (d : List (String × JobInfo)) (k : String) (v : JobInfo) :
    List (String × JobInfo) :=
  if d.any (fun kv => kv.1 == k) then
    d.map (fun kv => if kv.1 == k then (k, v) else kv)
  else d ++ [(k, v)]

/-! ## `JobDetector` helper operations (`src/core/job_detector.py`) -/

/-- `JobDetector._scan_lck_files`: stems of the `.lck` files in the listing
(case-insensitive extension), as a set. -/
def scanLckFiles (entries : List FsEntry) : List String :=
  pyDedup ((entries.filter
    (fun e => pyLower e.ext == ".lck" && e.isFile)).map (·.stem))

/-- `JobDetector._get_lck_age`: seconds since the marker's creation, `0` if
the marker is absent. The `stat` between the `exists` check and the
subtraction can raise if the file vanished in between. -/
def getLckAge (fs : DirFs) (now : Int) (name : String) : Except PyErr Int :=
  if fs.lckExists name then
    match fs.lckCtime name with
    | some c => .ok (now - c)
    | none => .error (.osError (name ++ ".lck"))
  else .ok 0

/-- `JobDetector._update_odb_size` (its `try` swallows every error, so the
call is total). -/
def updateOdbSize (fs : DirFs) (j : JobInfo) : JobInfo :=
  match fs.odbSizeMb j.name with
  | some s => { j with odbSizeMb := s }
  | none => j

/-- `JobDetector._update_job_progress`: copy the parse oracle's numeric
fields (the surrounding `try` swallows parse errors), then refresh the ODB
size. -/
def updateJobProgress (fs : DirFs) (j : JobInfo) : JobInfo :=
  let p := fs.progressData j.name
  let j := { j with
    step := p.step, increment := p.increment, totalTime := p.totalTime,
    stepTime := p.stepTime, incTime := p.incTime }
  updateOdbSize fs j

/-- The record-construction tail of `JobDetector._handle_new_job`: read the
marker's creation time (this `stat` is unguarded and can raise), build the
`JobInfo`, fetch the manifest total, take an initial progress snapshot and
register the job as running. -/
def createNewJob (fs : DirFs) (dir jobName computer : String) (st : DirState) :
    Except PyErr (Option JobInfo × DirState) :=
  match fs.lckCtime jobName with
  | none => .error (.osError (jobName ++ ".lck"))
  | some c =>
    let job : JobInfo :=
      { name := jobName, workDir := dir, computer := computer, startTime := c }
    let job := { job with totalStepTime := fs.totalStepTime jobName }
    let job := updateJobProgress fs job
    .ok (some job, { st with runningJobs := dictSet st.runningJobs jobName job })

/-- `JobDetector._handle_new_job`. -/
def handleNewJob (cfg : Config) (fs : DirFs) (now : Int)
    (dir jobName computer : String) (abaqusRunning : Bool) (st : DirState) :
    Except PyErr (Option JobInfo × DirState) :=
  if cfg.enableProcessDetection && !abaqusRunning then
    match getLckAge fs now jobName with
    | .error e => .error e
    | .ok age =>
      if cfg.lckGracePeriod ≤ age then
        .ok (none, { st with ignoredLck := laddSet st.ignoredLck jobName })
      else createNewJob fs dir jobName computer st
  else createNewJob fs dir jobName computer st

/-- The record mutation of `JobDetector._handle_job_end`: resolve the final
state from the status file and refresh the ODB size. -/
def handleJobEndCore (fs : DirFs) (now : Int) (j : JobInfo) : JobInfo :=
  let statusStr := getStatusFromFile (fs.staLines j.name)
  let j :=
    if statusStr == "success" then
      j.markCompleted now .SUCCESS "计算成功完成 - 收敛正常，结果可用"
    else if statusStr == "failed" then
      j.markCompleted now .FAILED "计算失败 - 分析未完成"
    else
      j.markCompleted now .ABORTED "作业异常终止 - 状态未知"
  updateOdbSize fs j

/-- `JobDetector._handle_job_end`: mutate the record and append it to
`completed_jobs`. -/
def handleJobEnd (fs : DirFs) (now : Int) (j : JobInfo)
    (completed : List JobInfo) : JobInfo × List JobInfo :=
  let j := handleJobEndCore fs now j
  (j, completed ++ [j])

/-- The record mutation of `JobDetector._handle_orphan_job` (the duration
string, the `.sta` info string and the webhook sends are external output
and do not touch detector state). -/
def handleOrphanJobCore (fs : DirFs) (now : Int) (j : JobInfo) : JobInfo :=
  let j := { j with isOrphan := true }
  let j := j.markCompleted now .ABORTED "Abaqus 进程已停止，但 .lck 文件仍存在"
  updateOdbSize fs j

/-- `JobDetector._handle_orphan_job`. -/
def handleOrphanJob (fs : DirFs) (now : Int) (j : JobInfo)
    (completed : List JobInfo) : JobInfo × List JobInfo :=
  let j := handleOrphanJobCore fs now j
  (j, completed ++ [j])

/-! ## The per-directory scan pipeline -/

/-- Step 6 of `_scan_directory`: `new_lck = effective_lck - previous_jobs`. -/
def newLckOf (effective previous : List String) : List String :=
  ldiff effective previous

/-- Step 7 of `_scan_directory`: `ended_jobs = previous_jobs - current_lck`. -/
def endedJobsOf (previous current : List String) : List String :=
  ldiff previous current

/-- The `for job_name in new_lck` loop: handle each new marker, collecting
the created records. On a raise the loop aborts, keeping the state mutated
so far and discarding the local `jobs` accumulator. -/
def processNew (cfg : Config) (fs : DirFs) (now : Int) (dir computer : String)
    (abaqusRunning : Bool) :
    List String → DirState → List JobInfo →
    Option PyErr × DirState × List JobInfo
  | [], st, jobs => (none, st, jobs)
  | name :: rest, st, jobs =>
    match handleNewJob cfg fs now dir name computer abaqusRunning st with
    | .error e => (some e, st, jobs)
    | .ok (jobO, st1) =>
      match jobO with
      | some j => processNew cfg fs now dir computer abaqusRunning rest st1 (jobs ++ [j])
      | none => processNew cfg fs now dir computer abaqusRunning rest st1 jobs

/-- The `for job_name in ended_jobs` loop of `_scan_directory` step 7: pop
the record from `running_jobs` (falling back to `finishing_jobs`); with no
confirmation period resolve it at once, otherwise execute
`job.status = JobStatus.FINISHING` — an enum-member lookup that raises
`AttributeError` because the member does not exist, after the record was
already popped. -/
def processEnded (cfg : Config) (fs : DirFs) (now : Int) :
    List String → DirState → List JobInfo → List JobInfo →
    Option PyErr × DirState × List JobInfo × List JobInfo
  | [], st, jobs, completed => (none, st, jobs, completed)
  | name :: rest, st, jobs, completed =>
    let p1 := dictPop st.runningJobs name
    let st1 := { st with runningJobs := p1.2 }
    let pick : Option JobInfo × DirState :=
      match p1.1 with
      | some j => (some j, st1)
      | none =>
        let p2 := dictPop st.finishingJobs name
        (p2.1, { st1 with finishingJobs := p2.2 })
    match pick with
    | (none, st2) => processEnded cfg fs now rest st2 jobs completed
    | (some job, st2) =>
      if cfg.jobEndConfirmPeriod ≤ 0 then
        let r := handleJobEnd fs now job completed
        processEnded cfg fs now rest st2 (jobs ++ [r.1]) r.2
      else
        match JobStatus.member "FINISHING" with
        | none => (some (.attributeError "FINISHING"), st2, jobs, completed)
        | some s =>
          let job := { job with status := s, endDetectedTime := some now }
          let st3 := { st2 with finishingJobs := dictSet st2.finishingJobs name job }
          processEnded cfg fs now rest st3 (jobs ++ [job]) completed

/-- The loop body of `JobDetector._finalize_finishing_jobs`, returning
(entries kept in `finishing_jobs`, records appended to the cycle's output,
records appended to `completed_jobs`). -/
def finalizeLoop (cfg : Config) (fs : DirFs) (now : Int) :
    List (String × JobInfo) →
    List (String × JobInfo) × List JobInfo × List JobInfo
  | [] => ([], [], [])
  | (name, job) :: rest =>
    if cfg.jobEndConfirmPeriod ≤ 0 then
      -- 无确认期则不应进入 finishing: dropped without any resolution
      finalizeLoop cfg fs now rest
    else
      let job :=
        if job.endDetectedTime == none then
          { job with endDetectedTime := some now }
        else job
      let elapsed := now - job.endDetectedTime.getD now
      let statusStr := getStatusFromFile (fs.staLines job.name)
      if statusStr == "success" || statusStr == "failed" then
        let job := handleJobEndCore fs now job
        let r := finalizeLoop cfg fs now rest
        (r.1, job :: r.2.1, job :: r.2.2)
      else if cfg.jobEndConfirmPeriod ≤ elapsed then
        let job := job.markCompleted now .ABORTED "作业异常终止 - 结束确认期超时"
        let job := updateOdbSize fs job
        let r := finalizeLoop cfg fs now rest
        (r.1, job :: r.2.1, job :: r.2.2)
      else
        let r := finalizeLoop cfg fs now rest
        ((name, job) :: r.1, r.2.1, r.2.2)

/-- `JobDetector._finalize_finishing_jobs`. -/
def finalizeFinishingJobs (cfg : Config) (fs : DirFs) (now : Int)
    (st : DirState) (jobs completed : List JobInfo) :
    DirState × List JobInfo × List JobInfo :=
  let r := finalizeLoop cfg fs now st.finishingJobs
  ({ st with finishingJobs := r.1 }, jobs ++ r.2.1, completed ++ r.2.2)

/-- The orphan-check loop of `_scan_directory` step 10, returning the names
kept under monitoring (`active_jobs_after_orphan_check`). A record inside
`finishing_jobs` would make the unguarded `running_jobs[directory].pop`
raise `KeyError`. -/
def processOrphans (cfg : Config) (fs : DirFs) (now : Int) :
    List String → DirState → List JobInfo → List JobInfo →
    Option PyErr × List String × DirState × List JobInfo × List JobInfo
  | [], st, jobs, completed => (none, [], st, jobs, completed)
  | name :: rest, st, jobs, completed =>
    match getLckAge fs now name with
    | .error e => (some e, [], st, jobs, completed)
    | .ok age =>
      if age < cfg.lckGracePeriod then
        let r := processOrphans cfg fs now rest st jobs completed
        (r.1, name :: r.2.1, r.2.2)
      else
        match st.runningJobs.lookup name with
        | none => (some (.keyError name), [], st, jobs, completed)
        | some job =>
          let st1 := { st with runningJobs := (dictPop st.runningJobs name).2 }
          let r := handleOrphanJob fs now job completed
          let st2 := { st1 with ignoredLck := laddSet st1.ignoredLck name }
          processOrphans cfg fs now rest st2 (jobs ++ [r.1]) r.2

/-- The progress-refresh loop of `_scan_directory` step 11. The dict access
`running_jobs[directory][job_name]` raises `KeyError` if the name is
missing; the in-place mutation of the shared record is a write-back. -/
def processActive (fs : DirFs) :
    List String → DirState → List JobInfo →
    Option PyErr × DirState × List JobInfo
  | [], st, jobs => (none, st, jobs)
  | name :: rest, st, jobs =>
    match st.runningJobs.lookup name with
    | none => (some (.keyError name), st, jobs)
    | some job =>
      let job := updateJobProgress fs job
      let st1 := { st with runningJobs := dictSet st.runningJobs name job }
      processActive fs rest st1 (jobs ++ [job])

/-- `JobDetector._scan_directory`. The result is
`(raised exception?, records returned, per-directory state, completed_jobs)`;
on a raise the local `jobs` list is lost but the state mutations made so
far persist. -/
def scanDirectory (cfg : Config) (fs : DirFs) (now : Int)
    (dir computer : String) (st : DirState) (completed : List JobInfo) :
    Option PyErr × List JobInfo × DirState × List JobInfo :=
  if !fs.dirExists then (none, [], st, completed)
  else
    let currentLck := scanLckFiles fs.entries
    let previousJobs :=
      pyDedup (dictKeys st.runningJobs ++ dictKeys st.finishingJobs)
    let removedIgnored := ldiff st.ignoredLck currentLck
    let st := { st with ignoredLck := ldiff st.ignoredLck removedIgnored }
    let abaqusRunning := if cfg.enableProcessDetection then fs.abaqusRunning else true
    let effectiveLck := ldiff currentLck st.ignoredLck
    let newLck := newLckOf effectiveLck previousJobs
    match processNew cfg fs now dir computer abaqusRunning newLck st [] with
    | (some e, st, _) => (some e, [], st, completed)
    | (none, st, jobs) =>
      let endedJobs := endedJobsOf previousJobs currentLck
      match processEnded cfg fs now endedJobs st jobs completed with
      | (some e, st, _, completed) => (some e, [], st, completed)
      | (none, st, jobs, completed) =>
        let r := finalizeFinishingJobs cfg fs now st jobs completed
        let st := r.1
        let jobs := r.2.1
        let completed := r.2.2
        let activeJobsNow := linter previousJobs effectiveLck
        if cfg.enableProcessDetection && !activeJobsNow.isEmpty && !abaqusRunning
        then
          match processOrphans cfg fs now activeJobsNow st jobs completed with
          | (some e, _, st, _, completed) => (some e, [], st, completed)
          | (none, keep, st, jobs, completed) =>
            match processActive fs keep st jobs with
            | (some e, st, _) => (some e, [], st, completed)
            | (none, st, jobs) => (none, jobs, st, completed)
        else
          match processActive fs activeJobsNow st jobs with
          | (some e, st, _) => (some e, [], st, completed)
          | (none, st, jobs) => (none, jobs, st, completed)

/-! ## The whole-detector scan (`JobDetector.scan_directories`) -/

/-- The state bookkeeping of `JobDetector._refresh_watch_dirs`: initialise
the per-directory dicts of directories entering the monitored set and drop
those of directories leaving it. The resolution of configured roots into
the monitored set is an input. -/
def refreshWatchDirs (monitored : List String) (st : DetectorState) :
    DetectorState :=
  let old := st.dirs.map (·.1)
  let kept := st.dirs.filter (fun p => decide (p.1 ∈ monitored))
  let added := (pyDedup monitored).filter (fun d => decide (d ∉ old))
  { st with dirs := kept ++ added.map (fun d => (d, {})) }

/-- The `for watch_path in monitored_dirs` loop of `scan_directories`: scan
each directory in order, concatenating the returned records. There is no
`try` around the body, so a raise inside one directory's scan aborts the
loop; directories not yet scanned keep their previous state and the
cycle's `all_jobs` output is lost. -/
def scanDirsLoop (cfg : Config) (fsOf : String → DirFs) (now : Int)
    (computer : String) :
    List (String × DirState) → List JobInfo → List JobInfo →
    Option PyErr × List (String × DirState) × List JobInfo × List JobInfo
  | [], allJobs, completed => (none, [], allJobs, completed)
  | (d, dst) :: rest, allJobs, completed =>
    match scanDirectory cfg (fsOf d) now d computer dst completed with
    | (some e, _, dst1, completed1) => (some e, (d, dst1) :: rest, [], completed1)
    | (none, jobs, dst1, completed1) =>
      let r := scanDirsLoop cfg fsOf now computer rest (allJobs ++ jobs) completed1
      (r.1, (d, dst1) :: r.2.1, r.2.2.1, r.2.2.2)

/-- `JobDetector.scan_directories`: refresh the watch set, then scan every
monitored directory. -/
def scanDirectories (cfg : Config) (fsOf : String → DirFs)
    (monitored : List String) (now : Int) (computer : String)
    (st : DetectorState) : Option PyErr × List JobInfo × DetectorState :=
  let st := refreshWatchDirs monitored st
  let r := scanDirsLoop cfg fsOf now computer st.dirs [] st.completedJobs
  (r.1, r.2.2.1, { dirs := r.2.1, completedJobs := r.2.2.2 })

/-! ## Record-level helper lemmas -/

@[simp]
theorem markCompleted_status (j : JobInfo) (now : Int) (s : JobStatus) (r : String) :
    (j.markCompleted now s r).status = s := by
  unfold JobInfo.markCompleted; split <;> rfl

@[simp]
theorem markCompleted_endTime (j : JobInfo) (now : Int) (s : JobStatus) (r : String) :
    (j.markCompleted now s r).endTime = some now := by
  unfold JobInfo.markCompleted; split <;> rfl

@[simp]
theorem markCompleted_isOrphan (j : JobInfo) (now : Int) (s : JobStatus) (r : String) :
    (j.markCompleted now s r).isOrphan = j.isOrphan := by
  unfold JobInfo.markCompleted; split <;> rfl

@[simp]
theorem markCompleted_name (j : JobInfo) (now : Int) (s : JobStatus) (r : String) :
    (j.markCompleted now s r).name = j.name := by
  unfold JobInfo.markCompleted; split <;> rfl

@[simp]
theorem markCompleted_startTime (j : JobInfo) (now : Int) (s : JobStatus) (r : String) :
    (j.markCompleted now s r).startTime = j.startTime := by
  unfold JobInfo.markCompleted; split <;> rfl

@[simp]
theorem updateOdbSize_status (fs : DirFs) (j : JobInfo) :
    (updateOdbSize fs j).status = j.status := by
  unfold updateOdbSize; cases fs.odbSizeMb j.name <;> rfl

@[simp]
theorem updateOdbSize_endTime (fs : DirFs) (j : JobInfo) :
    (updateOdbSize fs j).endTime = j.endTime := by
  unfold updateOdbSize; cases fs.odbSizeMb j.name <;> rfl

@[simp]
theorem updateOdbSize_isOrphan (fs : DirFs) (j : JobInfo) :
    (updateOdbSize fs j).isOrphan = j.isOrphan := by
  unfold updateOdbSize; cases fs.odbSizeMb j.name <;> rfl

@[simp]
theorem updateOdbSize_name (fs : DirFs) (j : JobInfo) :
    (updateOdbSize fs j).name = j.name := by
  unfold updateOdbSize; cases fs.odbSizeMb j.name <;> rfl

@[simp]
theorem updateOdbSize_startTime (fs : DirFs) (j : JobInfo) :
    (updateOdbSize fs j).startTime = j.startTime := by
  unfold updateOdbSize; cases fs.odbSizeMb j.name <;> rfl

@[simp]
theorem updateJobProgress_status (fs : DirFs) (j : JobInfo) :
    (updateJobProgress fs j).status = j.status := by
  unfold updateJobProgress; simp

@[simp]
theorem updateJobProgress_endTime (fs : DirFs) (j : JobInfo) :
    (updateJobProgress fs j).endTime = j.endTime := by
  unfold updateJobProgress; simp

@[simp]
theorem updateJobProgress_isOrphan (fs : DirFs) (j : JobInfo) :
    (updateJobProgress fs j).isOrphan = j.isOrphan := by
  unfold updateJobProgress; simp

@[simp]
theorem updateJobProgress_name (fs : DirFs) (j : JobInfo) :
    (updateJobProgress fs j).name = j.name := by
  unfold updateJobProgress; simp

@[simp]
theorem updateJobProgress_startTime (fs : DirFs) (j : JobInfo) :
    (updateJobProgress fs j).startTime = j.startTime := by
  unfold updateJobProgress; simp

/-! ## C6 — new and ended are disjoint within a cycle -/

/-- C6: for every scan cycle and directory, the set of jobs classified as
new (`new_lck = effective_lck − previous_jobs`, where
`effective_lck = current_lck − ignored`) and the set classified as ended
(`ended_jobs = previous_jobs − current_lck`) are disjoint: a name cannot
simultaneously enter and leave in one cycle. -/
theorem new_and_ended_disjoint (current ignored previous : List String)
    (x : String) (hx : x ∈ newLckOf (ldiff current ignored) previous) :
    x ∉ endedJobsOf previous current := by
  unfold newLckOf endedJobsOf ldiff at *
  simp only [List.mem_filter, decide_eq_true_eq] at *
  exact fun hp => hx.2 hp.1

/-- Witness for `new_and_ended_disjoint` at a concrete cycle. -/
theorem new_and_ended_disjoint_witness :
    "a" ∈ newLckOf (ldiff ["a"] []) [] ∧ "a" ∉ endedJobsOf [] ["a"] :=
  ⟨by decide, new_and_ended_disjoint ["a"] [] [] "a" (by decide)⟩

/-! ## C10 — the deduper global is created once -/

/-- C10: `get_notification_deduper` creates the global instance on the
first call, using that call's `ttl_seconds`; every later call returns the
originally-created instance unchanged, whatever `ttl_seconds` it passes,
so the TTL in force never changes after first use. -/
theorem get_notification_deduper_singleton :
    (∀ t : Int, getNotificationDeduper t none =
      ({ ttlSeconds := t, seen := [] }, some { ttlSeconds := t, seen := [] }))
  ∧ (∀ (t : Int) (d : NotificationDeduper),
      getNotificationDeduper t (some d) = (d, some d))
  ∧ (∀ t0 t1 : Int,
      ((getNotificationDeduper t1 (getNotificationDeduper t0 none).2).1).ttlSeconds
        = t0) := by
  refine ⟨fun t => rfl, fun t d => rfl, fun t0 t1 => rfl⟩

/-! ## C7 — status extraction from the `.sta` file -/

theorem hasSuccessPhrase_of_blank (raw : String) (h : pyStrip raw = "") :
    hasSuccessPhrase raw = false := by
  unfold hasSuccessPhrase; rw [h]; decide

theorem hasFailPhrase_of_blank (raw : String) (h : pyStrip raw = "") :
    hasFailPhrase raw = false := by
  unfold hasFailPhrase; rw [h]; decide

theorem statusScanRev_success (L : List String)
    (hfail : ∀ l ∈ L, hasFailPhrase l = false)
    (hsucc : ∃ l ∈ L, hasSuccessPhrase l = true) :
    statusScanRev L = some "success" := by
  induction L with
  | nil => simp at hsucc
  | cons raw rest ih =>
    obtain ⟨l, hl, hsl⟩ := hsucc
    by_cases hblank : pyStrip raw = ""
    · rw [statusScanRev, if_pos hblank]
      refine ih (fun m hm => hfail m (List.mem_cons_of_mem _ hm)) ⟨l, ?_, hsl⟩
      rcases List.mem_cons.1 hl with rfl | hl'
      · exact absurd hsl (by simp [hasSuccessPhrase_of_blank _ hblank])
      · exact hl'
    · rw [statusScanRev, if_neg hblank]
      by_cases hsr : hasSuccessPhrase raw = true
      · rw [if_pos hsr]
      · rw [if_neg hsr, if_neg (by simp [hfail raw (List.mem_cons_self _ _)])]
        refine ih (fun m hm => hfail m (List.mem_cons_of_mem _ hm)) ⟨l, ?_, hsl⟩
        rcases List.mem_cons.1 hl with rfl | hl'
        · exact absurd hsl hsr
        · exact hl'

theorem statusScanRev_failed (L : List String)
    (hsucc : ∀ l ∈ L, hasSuccessPhrase l = false)
    (hfail : ∃ l ∈ L, hasFailPhrase l = true) :
    statusScanRev L = some "failed" := by
  induction L with
  | nil => simp at hfail
  | cons raw rest ih =>
    obtain ⟨l, hl, hfl⟩ := hfail
    by_cases hblank : pyStrip raw = ""
    · rw [statusScanRev, if_pos hblank]
      refine ih (fun m hm => hsucc m (List.mem_cons_of_mem _ hm)) ⟨l, ?_, hfl⟩
      rcases List.mem_cons.1 hl with rfl | hl'
      · exact absurd hfl (by simp [hasFailPhrase_of_blank _ hblank])
      · exact hl'
    · rw [statusScanRev, if_neg hblank,
        if_neg (by simp [hsucc raw (List.mem_cons_self _ _)])]
      by_cases hfr : hasFailPhrase raw = true
      · rw [if_pos hfr]
      · rw [if_neg hfr]
        refine ih (fun m hm => hsucc m (List.mem_cons_of_mem _ hm)) ⟨l, ?_, hfl⟩
        rcases List.mem_cons.1 hl with rfl | hl'
        · exact absurd hfl hfr
        · exact hl'

theorem statusScanRev_none (L : List String)
    (h : ∀ l ∈ L, hasSuccessPhrase l = false ∧ hasFailPhrase l = false) :
    statusScanRev L = none := by
  induction L with
  | nil => rfl
  | cons raw rest ih =>
    have hr := h raw (List.mem_cons_self _ _)
    by_cases hblank : pyStrip raw = ""
    · rw [statusScanRev, if_pos hblank]
      exact ih fun m hm => h m (List.mem_cons_of_mem _ hm)
    · rw [statusScanRev, if_neg hblank, if_neg (by simp [hr.1]),
        if_neg (by simp [hr.2])]
      exact ih fun m hm => h m (List.mem_cons_of_mem _ hm)

/-- C7: the status extracted from a `.sta` snapshot is `"success"` when the
success phrase appears (case-insensitively, and no failure phrase does),
`"failed"` when one of the two failure phrases appears (and the success
phrase does not), `"running"` when the file has non-blank content but no
recognized phrase, and `"unknown"` when the file is missing, empty, or
blank. -/
theorem sta_status_classification (lines : List String) :
    ((∀ l ∈ lines, hasFailPhrase l = false) →
      (∃ l ∈ lines, hasSuccessPhrase l = true) →
      getStatusFromFile (some lines) = "success")
  ∧ ((∀ l ∈ lines, hasSuccessPhrase l = false) →
      (∃ l ∈ lines, hasFailPhrase l = true) →
      getStatusFromFile (some lines) = "failed")
  ∧ ((∀ l ∈ lines, hasSuccessPhrase l = false ∧ hasFailPhrase l = false) →
      (∃ l ∈ lines, pyStrip l ≠ "") →
      getStatusFromFile (some lines) = "running")
  ∧ getStatusFromFile none = "unknown"
  ∧ ((∀ l ∈ lines, pyStrip l = "") →
      getStatusFromFile (some lines) = "unknown") := by
  refine ⟨?_, ?_, ?_, rfl, ?_⟩
  · intro hf hs
    obtain ⟨l, hl, hsl⟩ := hs
    cases lines with
    | nil => simp at hl
    | cons a as =>
      show getStatusFromLines (a :: as) = "success"
      unfold getStatusFromLines
      rw [statusScanRev_success (a :: as).reverse
        (fun m hm => hf m (List.mem_reverse.1 hm))
        ⟨l, List.mem_reverse.2 hl, hsl⟩]
  · intro hs hf
    obtain ⟨l, hl, hfl⟩ := hf
    cases lines with
    | nil => simp at hl
    | cons a as =>
      show getStatusFromLines (a :: as) = "failed"
      unfold getStatusFromLines
      rw [statusScanRev_failed (a :: as).reverse
        (fun m hm => hs m (List.mem_reverse.1 hm))
        ⟨l, List.mem_reverse.2 hl, hfl⟩]
  · intro hnone hne
    obtain ⟨l, hl, hne'⟩ := hne
    cases lines with
    | nil => simp at hl
    | cons a as =>
      show getStatusFromLines (a :: as) = "running"
      unfold getStatusFromLines
      rw [statusScanRev_none (a :: as).reverse
        (fun m hm => hnone m (List.mem_reverse.1 hm))]
      have : (a :: as).any (fun l => pyStrip l != "") = true :=
        List.any_eq_true.2 ⟨l, hl, by simpa using hne'⟩
      rw [this]
      rfl
  · intro hblank
    cases lines with
    | nil => rfl
    | cons a as =>
      show getStatusFromLines (a :: as) = "unknown"
      unfold getStatusFromLines
      rw [statusScanRev_none (a :: as).reverse (fun m hm => by
        have hb := hblank m (List.mem_reverse.1 hm)
        exact ⟨hasSuccessPhrase_of_blank _ hb, hasFailPhrase_of_blank _ hb⟩)]
      have : (a :: as).any (fun l => pyStrip l != "") = false := by
        simp only [List.any_eq_false]
        intro m hm
        simp [hblank m hm]
      rw [this]
      rfl

/-- Witness for `sta_status_classification`: each branch evaluated at a
concrete snapshot. -/
theorem sta_status_classification_witness :
    getStatusFromFile (some [" 1 1 1 0.1",
      "THE ANALYSIS HAS COMPLETED SUCCESSFULLY"]) = "success"
  ∧ getStatusFromFile (some ["the analysis has not been completed"]) = "failed"
  ∧ getStatusFromFile (some [" 1 1 1 0.1"]) = "running"
  ∧ getStatusFromFile (some ["", "  "]) = "unknown" := by
  refine ⟨(sta_status_classification _).1 (by decide) ⟨_, by
    exact List.mem_cons_self _ _ |> List.mem_cons_of_mem _, by decide⟩, ?_, ?_, ?_⟩
  · exact (sta_status_classification _).2.1 (by decide)
      ⟨_, List.mem_cons_self _ _, by decide⟩
  · exact (sta_status_classification _).2.2.1 (by decide)
      ⟨_, List.mem_cons_self _ _, by decide⟩
  · exact (sta_status_classification _).2.2.2.2 (by decide)

/-! ## C2 — deduper `should_send` behaviour -/

theorem mem_dictAssign (l : List (String × Int)) (k : String) (v : Int)
    (e : String × Int) (h : e ∈ dictAssign l k v) : e ∈ l ∨ e = (k, v) := by
  unfold dictAssign at h
  split at h
  · obtain ⟨q, hq, hfq⟩ := List.mem_map.1 h
    by_cases hqk : q.1 == k
    · right; rw [if_pos hqk] at hfq; exact hfq.symm
    · left; rw [if_neg hqk] at hfq; exact hfq ▸ hq
  · rcases List.mem_append.1 h with h' | h'
    · exact Or.inl h'
    · exact Or.inr (List.mem_singleton.1 h')

theorem mem_cleanup_bound (d : NotificationDeduper) (t : Int)
    (ht : 0 < d.ttlSeconds) (e : String × Int) (h : e ∈ (d.cleanup t).seen) :
    t - d.ttlSeconds ≤ e.2 := by
  unfold NotificationDeduper.cleanup at h
  rw [if_neg (by omega)] at h
  exact of_decide_eq_true (List.mem_filter.1 h).2

@[simp]
theorem cleanup_ttl (d : NotificationDeduper) (t : Int) :
    (d.cleanup t).ttlSeconds = d.ttlSeconds := by
  unfold NotificationDeduper.cleanup; split <;> rfl

/-- Unfolding of `should_send` for a non-empty key. -/
theorem shouldSend_eq (d : NotificationDeduper) (t : Int) (k : String)
    (hk : k ≠ "") :
    d.shouldSend t k =
      match (d.cleanup t).seen.lookup k with
      | some last =>
        if t - last < d.ttlSeconds then (false, d.cleanup t)
        else (true, { d.cleanup t with seen := dictAssign (d.cleanup t).seen k t })
      | none => (true, { d.cleanup t with seen := dictAssign (d.cleanup t).seen k t }) := by
  unfold NotificationDeduper.shouldSend
  rw [if_neg hk]
  cases h : (d.cleanup t).seen.lookup k <;> simp [h]

theorem lookup_single_self (k : String) (u : Int) :
    List.lookup k [(k, u)] = some u := by
  simp [List.lookup]

theorem cleanup_single_keep (ttl0 u v : Int) (k : String)
    (hpos : 0 < ttl0) (hkeep : v - ttl0 ≤ u) :
    (NotificationDeduper.mk ttl0 [(k, u)]).cleanup v =
      NotificationDeduper.mk ttl0 [(k, u)] := by
  unfold NotificationDeduper.cleanup
  rw [if_neg (by omega : ¬ ttl0 ≤ 0)]
  simp only [List.filter_cons, decide_eq_true_eq]
  rw [if_pos hkeep]
  rfl

theorem cleanup_single_drop (ttl0 u v : Int) (k : String)
    (hpos : 0 < ttl0) (hdrop : ¬ v - ttl0 ≤ u) :
    (NotificationDeduper.mk ttl0 [(k, u)]).cleanup v =
      NotificationDeduper.mk ttl0 [] := by
  unfold NotificationDeduper.cleanup
  rw [if_neg (by omega : ¬ ttl0 ≤ 0)]
  simp only [List.filter_cons, decide_eq_true_eq]
  rw [if_neg hdrop]
  rfl

/-- C2: `should_send` first purges entries older than the TTL (clearing
everything when TTL ≤ 0, which disables deduplication); an empty key is
always allowed and never recorded; a live entry yields `false`; otherwise
`now` is recorded under the key and `true` is returned. Consequently, from
a fresh deduper with TTL > 0, a first call returns `true`, an immediate
second call within the TTL returns `false`, and a call made once the TTL
has elapsed returns `true` again. -/
theorem should_send_spec (d : NotificationDeduper) (k : String)
    (t t2 t3 ttl0 : Int) :
    (d.shouldSend t "" = (true, d))
  ∧ (k ≠ "" → 0 < d.ttlSeconds →
      ∀ e ∈ (d.shouldSend t k).2.seen, t - d.ttlSeconds ≤ e.2)
  ∧ (k ≠ "" → d.ttlSeconds ≤ 0 →
      d.shouldSend t k = (true, { d with seen := [(k, t)] }))
  ∧ (∀ last, k ≠ "" → (d.cleanup t).seen.lookup k = some last →
      t - last < d.ttlSeconds →
      d.shouldSend t k = (false, d.cleanup t))
  ∧ (k ≠ "" →
      (∀ last, (d.cleanup t).seen.lookup k = some last → d.ttlSeconds ≤ t - last) →
      d.shouldSend t k =
        (true, { d.cleanup t with seen := dictAssign (d.cleanup t).seen k t }))
  ∧ (k ≠ "" → 0 < ttl0 →
      ((NotificationDeduper.mk ttl0 []).shouldSend t k).1 = true)
  ∧ (k ≠ "" → 0 < ttl0 → t2 - t < ttl0 →
      ((((NotificationDeduper.mk ttl0 []).shouldSend t k).2).shouldSend t2 k).1
        = false)
  ∧ (k ≠ "" → 0 < ttl0 → ttl0 ≤ t3 - t →
      ((((NotificationDeduper.mk ttl0 []).shouldSend t k).2).shouldSend t3 k).1
        = true) := by
  have hfresh : ∀ u : Int, 0 < ttl0 → k ≠ "" →
      (NotificationDeduper.mk ttl0 []).shouldSend u k =
        (true, NotificationDeduper.mk ttl0 [(k, u)]) := by
    intro u hpos hk
    rw [shouldSend_eq _ _ _ hk]
    unfold NotificationDeduper.cleanup
    rw [if_neg (by omega : ¬ ttl0 ≤ 0)]
    simp [dictAssign]
  refine ⟨?_, ?_, ?_, ?_, ?_, ?_, ?_, ?_⟩
  · unfold NotificationDeduper.shouldSend
    rw [if_pos rfl]
  · intro hk hpos e he
    rw [shouldSend_eq _ _ _ hk] at he
    revert he
    cases hl : (d.cleanup t).seen.lookup k with
    | none =>
      intro he
      simp only at he
      rcases mem_dictAssign _ _ _ _ he with h' | h'
      · exact mem_cleanup_bound d t hpos e h'
      · subst h'; omega
    | some last =>
      intro he
      simp only at he
      split at he
      · exact mem_cleanup_bound d t hpos e he
      · rcases mem_dictAssign _ _ _ _ he with h' | h'
        · exact mem_cleanup_bound d t hpos e h'
        · subst h'; omega
  · intro hk hle
    rw [shouldSend_eq _ _ _ hk]
    have hcl : d.cleanup t = { d with seen := [] } := by
      unfold NotificationDeduper.cleanup
      rw [if_pos hle]
    rw [hcl]
    simp [dictAssign]
  · intro last hk hl hlive
    rw [shouldSend_eq _ _ _ hk]
    simp only [hl]
    rw [if_pos hlive]
  · intro hk hstale
    rw [shouldSend_eq _ _ _ hk]
    cases hl : (d.cleanup t).seen.lookup k with
    | none => rfl
    | some last =>
      simp only
      rw [if_neg (by have := hstale last hl; omega)]
  · intro hk hpos
    rw [hfresh t hpos hk]
  · intro hk hpos hnear
    rw [hfresh t hpos hk]
    simp only
    rw [shouldSend_eq _ _ _ hk,
      cleanup_single_keep ttl0 t t2 k hpos (by omega)]
    simp only [lookup_single_self]
    rw [if_pos (by simpa using (by omega : t2 - t < ttl0))]
  · intro hk hpos hfar
    rw [hfresh t hpos hk]
    simp only
    rw [shouldSend_eq _ _ _ hk]
    by_cases hkeep : t3 - ttl0 ≤ t
    · rw [cleanup_single_keep ttl0 t t3 k hpos hkeep]
      simp only [lookup_single_self]
      rw [if_neg (by simpa using (by omega : ¬ t3 - t < ttl0))]
    · rw [cleanup_single_drop ttl0 t t3 k hpos hkeep]
      simp only [List.lookup_nil]

/-- Witness for `should_send_spec`: TTL 10, key `"k"`, calls at times 0, 5
and 10. -/
theorem should_send_spec_witness :
    ((NotificationDeduper.mk 10 [("old", -100)]).shouldSend 0 ""
      = (true, NotificationDeduper.mk 10 [("old", -100)]))
  ∧ (∀ e ∈ ((NotificationDeduper.mk 10 [("old", -100)]).shouldSend 0 "k").2.seen,
      (0 : Int) - 10 ≤ e.2)
  ∧ (((NotificationDeduper.mk 10 []).shouldSend 0 "k").1 = true)
  ∧ ((((NotificationDeduper.mk 10 []).shouldSend 0 "k").2).shouldSend 5 "k").1
      = false
  ∧ ((((NotificationDeduper.mk 10 []).shouldSend 0 "k").2).shouldSend 10 "k").1
      = true := by
  have h := should_send_spec (NotificationDeduper.mk 10 [("old", -100)]) "k" 0 5 10 10
  exact ⟨h.1, h.2.1 (by decide) (by decide),
    h.2.2.2.2.2.1 (by decide) (by decide),
    h.2.2.2.2.2.2.1 (by decide) (by decide) (by decide),
    h.2.2.2.2.2.2.2 (by decide) (by decide) (by decide)⟩

/-! ## Scenario inputs shared by the lifecycle claims -/

/-- A directory entry for `<n>.lck`. -/
def lckEntry (n : String) : FsEntry :=
  { stem := n, ext := ".lck", isFile := true }

/-- A concrete running job used by the `FINISHING` failing-input evaluation. -/
def c1Job : JobInfo :=
  { name := "job1", workDir := "d", computer := "pc", startTime := 0 }

/-! ## C1 — entering the Finishing state (code bug) -/

/-- C1 failing input: with `JOB_END_CONFIRM_PERIOD = 60 > 0`, a previously
running job whose marker file disappears does not transition to a
Finishing state: the assignment `job.status = JobStatus.FINISHING`
(`job_detector.py` line 183) looks up an enum member that `models/job.py`
does not declare, so the scan raises `AttributeError` after the record was
already popped — the job ends up in neither `running_jobs`,
`finishing_jobs` nor `completed_jobs`, and no terminal resolution ever
happens. -/
theorem finishing_transition_raises :
    scanDirectory
        { enableProcessDetection := true, lckGracePeriod := 60,
          jobEndConfirmPeriod := 60 }
        {} 100 "d" "pc"
        { runningJobs := [("job1", c1Job)], finishingJobs := [],
          ignoredLck := [] } [] =
      (some (PyErr.attributeError "FINISHING"), [],
        { runningJobs := [], finishingJobs := [], ignoredLck := [] }, [])
  ∧ JobStatus.member "FINISHING" = none := by
  exact ⟨rfl, rfl⟩

/-! ## C4 — synchronous resolution when the confirmation period is ≤ 0 -/

/-- A directory snapshot with no marker files: only the status file, ODB
and progress oracles matter. -/
def staOnlyFs (sta : String → Option (List String)) (odb : String → Option Int)
    (prog : String → ProgressData) : DirFs :=
  { staLines := sta, odbSizeMb := odb, progressData := prog }

/-- C4: with `JOB_END_CONFIRM_PERIOD ≤ 0`, a previously-active job whose
marker disappears is resolved within the same scan cycle (the Finishing
map stays empty throughout, so the Finishing state is never entered):
its status snapshot maps `success ↦ SUCCESS`, `failed ↦ FAILED` and
anything else to `ABORTED`, with `end_time` set at resolution. -/
theorem confirm_zero_resolves_synchronously
    (pd : Bool) (G T now : Int) (hT : T ≤ 0)
    (sta : String → Option (List String)) (odb : String → Option Int)
    (prog : String → ProgressData)
    (n dir computer : String) (j : JobInfo) (comp : List JobInfo) :
    scanDirectory ⟨pd, G, T⟩ (staOnlyFs sta odb prog) now dir computer
        ⟨[(n, j)], [], []⟩ comp =
      (none, [handleJobEndCore (staOnlyFs sta odb prog) now j],
        ⟨[], [], []⟩,
        comp ++ [handleJobEndCore (staOnlyFs sta odb prog) now j])
  ∧ (handleJobEndCore (staOnlyFs sta odb prog) now j).endTime = some now
  ∧ (handleJobEndCore (staOnlyFs sta odb prog) now j).status =
      (if getStatusFromFile (sta j.name) = "success" then JobStatus.SUCCESS
       else if getStatusFromFile (sta j.name) = "failed" then JobStatus.FAILED
       else JobStatus.ABORTED) := by
  refine ⟨?_, ?_, ?_⟩
  · simp [scanDirectory, staOnlyFs, scanLckFiles, pyDedup, pyDedupAux, dictKeys,
      ldiff, linter, newLckOf, endedJobsOf, processNew, processEnded, dictPop,
      handleJobEnd, finalizeFinishingJobs, finalizeLoop, processActive, hT,
      List.lookup]
  · simp only [handleJobEndCore]
    split_ifs <;> simp
  · simp only [handleJobEndCore, staOnlyFs]
    split_ifs with h1 h2 <;> simp_all [beq_iff_eq]

/-- Witness for `confirm_zero_resolves_synchronously`: a concrete ended job
whose snapshot reports success. -/
theorem confirm_zero_resolves_synchronously_witness :
    scanDirectory ⟨true, 60, 0⟩
        (staOnlyFs (fun _ => some ["THE ANALYSIS HAS COMPLETED SUCCESSFULLY"])
          (fun _ => none) (fun _ => {})) 100 "d" "pc"
        ⟨[("job1", c1Job)], [], []⟩ [] =
      (none,
        [handleJobEndCore
          (staOnlyFs (fun _ => some ["THE ANALYSIS HAS COMPLETED SUCCESSFULLY"])
            (fun _ => none) (fun _ => {})) 100 c1Job],
        ⟨[], [], []⟩,
        [handleJobEndCore
          (staOnlyFs (fun _ => some ["THE ANALYSIS HAS COMPLETED SUCCESSFULLY"])
            (fun _ => none) (fun _ => {})) 100 c1Job]) :=
  (confirm_zero_resolves_synchronously true 60 0 100 (by decide)
    (fun _ => some ["THE ANALYSIS HAS COMPLETED SUCCESSFULLY"])
    (fun _ => none) (fun _ => {}) "job1" "d" "pc" c1Job []).1

/-! ## C5 — first-seen marker while the process is absent -/

/-- A directory holding exactly one fresh marker `<n>.lck` created at time
`c`, with no Abaqus process running. -/
def newJobFs (n : String) (c : Int) (sta : String → Option (List String))
    (odb : String → Option Int) (prog : String → ProgressData)
    (tst : String → Int) : DirFs :=
  { entries := [lckEntry n],
    lckExists := fun m => m == n,
    lckCtime := fun m => if m == n then some c else none,
    staLines := sta, odbSizeMb := odb, progressData := prog,
    totalStepTime := tst, abaqusRunning := false }

/-- The record `_handle_new_job` builds for a marker of creation time `c`. -/
def builtJob (fs : DirFs) (n dir computer : String) (c : Int) : JobInfo :=
  updateJobProgress fs
    { name := n, workDir := dir, computer := computer, startTime := c,
      totalStepTime := fs.totalStepTime n }

/-- C5: a marker first observed while process presence is false is created
as a `RUNNING` record (start time = the marker's creation timestamp, not
orphaned, no end time) and emitted, provided its age is strictly below the
grace period; at or above the grace period the name is only added to the
directory's ignored set and no record is created. -/
theorem new_marker_grace_period (G T now c : Int)
    (sta : String → Option (List String)) (odb : String → Option Int)
    (prog : String → ProgressData) (tst : String → Int)
    (n dir computer : String) (comp : List JobInfo) :
    (now - c < G →
      scanDirectory ⟨true, G, T⟩ (newJobFs n c sta odb prog tst) now dir
          computer ⟨[], [], []⟩ comp =
        (none, [builtJob (newJobFs n c sta odb prog tst) n dir computer c],
          ⟨[(n, builtJob (newJobFs n c sta odb prog tst) n dir computer c)],
            [], []⟩, comp))
  ∧ (now - c < G →
      (builtJob (newJobFs n c sta odb prog tst) n dir computer c).status =
          JobStatus.RUNNING
      ∧ (builtJob (newJobFs n c sta odb prog tst) n dir computer c).startTime = c
      ∧ (builtJob (newJobFs n c sta odb prog tst) n dir computer c).endTime = none
      ∧ (builtJob (newJobFs n c sta odb prog tst) n dir computer c).isOrphan
          = false)
  ∧ (G ≤ now - c →
      scanDirectory ⟨true, G, T⟩ (newJobFs n c sta odb prog tst) now dir
          computer ⟨[], [], []⟩ comp =
        (none, [], ⟨[], [], [n]⟩, comp)) := by
  refine ⟨?_, ?_, ?_⟩
  · intro h
    simp [scanDirectory, newJobFs, scanLckFiles, lckEntry, pyDedup, pyDedupAux,
      dictKeys, ldiff, linter, newLckOf, endedJobsOf, processNew, handleNewJob,
      createNewJob, getLckAge, dictSet, laddSet, builtJob, processEnded,
      finalizeFinishingJobs, finalizeLoop, processActive,
      if_neg (not_le.2 h), pyLower]
  · intro h
    refine ⟨by simp [builtJob], by simp [builtJob], by simp [builtJob],
      by simp [builtJob]⟩
  · intro h
    simp [scanDirectory, newJobFs, scanLckFiles, lckEntry, pyDedup, pyDedupAux,
      dictKeys, ldiff, linter, newLckOf, endedJobsOf, processNew, handleNewJob,
      createNewJob, getLckAge, dictSet, laddSet, processEnded,
      finalizeFinishingJobs, finalizeLoop, processActive, if_pos h, pyLower]

/-- Witness for `new_marker_grace_period`: marker aged 10 s against a 60 s
grace period (created), and the same marker aged 110 s (ignored). -/
theorem new_marker_grace_period_witness :
    scanDirectory ⟨true, 60, 0⟩
        (newJobFs "jobN" 90 (fun _ => none) (fun _ => none) (fun _ => {})
          (fun _ => 0)) 100 "d" "pc" ⟨[], [], []⟩ [] =
      (none,
        [builtJob (newJobFs "jobN" 90 (fun _ => none) (fun _ => none)
          (fun _ => {}) (fun _ => 0)) "jobN" "d" "pc" 90],
        ⟨[("jobN", builtJob (newJobFs "jobN" 90 (fun _ => none) (fun _ => none)
          (fun _ => {}) (fun _ => 0)) "jobN" "d" "pc" 90)], [], []⟩, [])
  ∧ scanDirectory ⟨true, 60, 0⟩
        (newJobFs "jobN" 90 (fun _ => none) (fun _ => none) (fun _ => {})
          (fun _ => 0)) 200 "d" "pc" ⟨[], [], []⟩ [] =
      (none, [], ⟨[], [], ["jobN"]⟩, []) :=
  ⟨(new_marker_grace_period 60 0 100 90 (fun _ => none) (fun _ => none)
      (fun _ => {}) (fun _ => 0) "jobN" "d" "pc" []).1 (by decide),
   (new_marker_grace_period 60 0 200 90 (fun _ => none) (fun _ => none)
      (fun _ => {}) (fun _ => 0) "jobN" "d" "pc" []).2.2 (by decide)⟩

/-! ## C3 — orphan reclassification and the ignored set -/

/-- The record `_handle_orphan_job` produces for the orphaned job `j`. -/
def orphanedJob (fs : DirFs) (now : Int) (j : JobInfo) : JobInfo :=
  handleOrphanJobCore fs now j

/-- C3: with process presence false and a previously-active job whose
marker age is at or above the grace period, the cycle removes the job from
active tracking and marks it terminal `ABORTED` with `is_orphan = true`
and `end_time` set, adding its name to the directory's ignored set. The
name stays ignored (and the marker is not reprocessed) on a later cycle
while the marker is still present, and is dropped from the ignored set by
the first cycle that no longer sees the marker. -/
theorem orphan_reclassification (G T now now2 now3 c : Int)
    (sta : String → Option (List String)) (odb : String → Option Int)
    (prog : String → ProgressData) (tst : String → Int)
    (n dir computer : String) (j : JobInfo)
    (comp comp2 comp3 : List JobInfo) (hage : G ≤ now - c) :
    scanDirectory ⟨true, G, T⟩ (newJobFs n c sta odb prog tst) now dir
        computer ⟨[(n, j)], [], []⟩ comp =
      (none, [orphanedJob (newJobFs n c sta odb prog tst) now j],
        ⟨[], [], [n]⟩,
        comp ++ [orphanedJob (newJobFs n c sta odb prog tst) now j])
  ∧ (orphanedJob (newJobFs n c sta odb prog tst) now j).status =
      JobStatus.ABORTED
  ∧ (orphanedJob (newJobFs n c sta odb prog tst) now j).isOrphan = true
  ∧ (orphanedJob (newJobFs n c sta odb prog tst) now j).endTime = some now
  ∧ scanDirectory ⟨true, G, T⟩ (newJobFs n c sta odb prog tst) now2 dir
        computer ⟨[], [], [n]⟩ comp2 =
      (none, [], ⟨[], [], [n]⟩, comp2)
  ∧ scanDirectory ⟨true, G, T⟩ (staOnlyFs sta odb prog) now3 dir computer
        ⟨[], [], [n]⟩ comp3 =
      (none, [], ⟨[], [], []⟩, comp3) := by
  refine ⟨?_, ?_, ?_, ?_, ?_, ?_⟩
  · simp [scanDirectory, newJobFs, scanLckFiles, lckEntry, pyDedup, pyDedupAux,
      dictKeys, ldiff, linter, newLckOf, endedJobsOf, processNew, processEnded,
      processOrphans, getLckAge, dictPop, laddSet, handleOrphanJob, orphanedJob,
      finalizeFinishingJobs, finalizeLoop, processActive, List.lookup,
      if_neg (not_lt.2 hage), pyLower]
  · simp [orphanedJob, handleOrphanJobCore]
  · simp [orphanedJob, handleOrphanJobCore]
  · simp [orphanedJob, handleOrphanJobCore]
  · simp [scanDirectory, newJobFs, scanLckFiles, lckEntry, pyDedup, pyDedupAux,
      dictKeys, ldiff, linter, newLckOf, endedJobsOf, processNew, processEnded,
      finalizeFinishingJobs, finalizeLoop, processActive, pyLower]
  · simp [scanDirectory, staOnlyFs, scanLckFiles, pyDedup, pyDedupAux,
      dictKeys, ldiff, linter, newLckOf, endedJobsOf, processNew, processEnded,
      finalizeFinishingJobs, finalizeLoop, processActive]

/-- Witness for `orphan_reclassification`: marker aged 100 s against a 60 s
grace period with the process gone. -/
theorem orphan_reclassification_witness :
    scanDirectory ⟨true, 60, 0⟩
        (newJobFs "job1" 0 (fun _ => none) (fun _ => none) (fun _ => {})
          (fun _ => 0)) 100 "d" "pc" ⟨[("job1", c1Job)], [], []⟩ [] =
      (none,
        [orphanedJob (newJobFs "job1" 0 (fun _ => none) (fun _ => none)
          (fun _ => {}) (fun _ => 0)) 100 c1Job],
        ⟨[], [], ["job1"]⟩,
        [orphanedJob (newJobFs "job1" 0 (fun _ => none) (fun _ => none)
          (fun _ => {}) (fun _ => 0)) 100 c1Job]) :=
  (orphan_reclassification 60 0 100 200 300 0 (fun _ => none) (fun _ => none)
    (fun _ => {}) (fun _ => 0) "job1" "d" "pc" c1Job [] [] []
    (by decide)).1

/-! ## C8 — exceptions while scanning one directory are not isolated -/

/-- Two monitored directories: in `d1` the fresh marker `a.lck` vanishes
between the listing and the `stat` call (so `_handle_new_job` raises
`OSError`); `d2` holds a healthy fresh marker `b.lck`. -/
def twoDirFs : String → DirFs := fun d =>
  if d == "d1" then
    { entries := [lckEntry "a"], lckCtime := fun _ => none }
  else
    { entries := [lckEntry "b"], lckCtime := fun _ => some 0 }

/-- C8 counterexample: the `OSError` raised while scanning `d1` aborts
`scan_directories` (there is no per-directory exception handling), so `d2`
is never scanned in this cycle — its marker `b.lck` creates no record and
its per-directory state stays empty, refuting the claim that a failure in
one directory does not prevent scanning the others. -/
theorem scan_exception_not_isolated :
    scanDirectories
        { enableProcessDetection := false, lckGracePeriod := 60,
          jobEndConfirmPeriod := 0 }
        twoDirFs ["d1", "d2"] 100 "pc" {} =
      (some (PyErr.osError "a.lck"), [],
        { dirs := [("d1", {}), ("d2", {})], completedJobs := [] }) := by
  exact rfl

/-- C8 amended: an exception raised while scanning one monitored directory
propagates out of the directory loop, so the directories after it in the
iteration order are left unscanned in that cycle, with their state
untouched; the error and the state changes made so far are what the cycle
returns. -/
theorem scan_exception_aborts_cycle (cfg : Config) (fsOf : String → DirFs)
    (now : Int) (computer d : String) (dst dst1 : DirState)
    (rest : List (String × DirState)) (allJobs comp comp1 out : List JobInfo)
    (e : PyErr)
    (h : scanDirectory cfg (fsOf d) now d computer dst comp =
      (some e, out, dst1, comp1)) :
    scanDirsLoop cfg fsOf now computer ((d, dst) :: rest) allJobs comp =
      (some e, (d, dst1) :: rest, [], comp1) := by
  simp [scanDirsLoop, h]

/-- Witness for `scan_exception_aborts_cycle` at the concrete two-directory
cycle. -/
theorem scan_exception_aborts_cycle_witness :
    scanDirsLoop
        { enableProcessDetection := false, lckGracePeriod := 60,
          jobEndConfirmPeriod := 0 }
        twoDirFs 100 "pc" [("d1", {}), ("d2", {})] [] [] =
      (some (PyErr.osError "a.lck"), [("d1", {}), ("d2", {})], [], []) :=
  scan_exception_aborts_cycle
    { enableProcessDetection := false, lckGracePeriod := 60,
      jobEndConfirmPeriod := 0 }
    twoDirFs 100 "pc" "d1" {} {} [("d2", {})] [] [] [] [] (.osError "a.lck")
    rfl

/-! ## C9 — lifecycle invariant: `end_time` iff terminal, monotone
transitions, terminal records never touched again -/

/-- The terminal statuses `{SUCCESS, FAILED, ABORTED}`. -/
def terminalStatus : JobStatus → Bool
  | .RUNNING => false
  | .SUCCESS => true
  | .FAILED => true
  | .ABORTED => true

/-- The claimed invariant for a single record: `end_time` is set if and
only if the status is terminal. -/
def endTimeInv (j : JobInfo) : Prop :=
  j.endTime.isSome = terminalStatus j.status

/-- A record in its pre-terminal shape: status `RUNNING`, no end time. -/
def RunRec (j : JobInfo) : Prop :=
  j.status = JobStatus.RUNNING ∧ j.endTime = none

/-- A resolved record: terminal status and an end time. -/
def TermRec (j : JobInfo) : Prop :=
  terminalStatus j.status = true ∧ j.endTime.isSome = true

theorem runRec_endTimeInv {j : JobInfo} (h : RunRec j) : endTimeInv j := by
  unfold endTimeInv
  rw [h.1, h.2]
  rfl

theorem termRec_endTimeInv {j : JobInfo} (h : TermRec j) : endTimeInv j := by
  unfold endTimeInv
  rw [h.1, h.2]

/-- The per-directory state invariant: every tracked record (running or
finishing) is still in its pre-terminal shape. -/
def DirInv (st : DirState) : Prop :=
  (∀ p ∈ st.runningJobs, RunRec p.2) ∧ (∀ p ∈ st.finishingJobs, RunRec p.2)

/-- The whole-detector invariant: every directory satisfies `DirInv` and
every completed record is terminal with its end time set. -/
def DetInv (st : DetectorState) : Prop :=
  (∀ p ∈ st.dirs, DirInv p.2) ∧ (∀ j ∈ st.completedJobs, TermRec j)

theorem RunRec_updateJobProgress (fs : DirFs) {j : JobInfo} (h : RunRec j) :
    RunRec (updateJobProgress fs j) := by
  unfold RunRec at *
  simp [h.1, h.2]

theorem TermRec_handleJobEndCore (fs : DirFs) (now : Int) (j : JobInfo) :
    TermRec (handleJobEndCore fs now j) := by
  unfold TermRec
  simp only [handleJobEndCore]
  split_ifs <;> simp [terminalStatus]

theorem TermRec_handleOrphanJobCore (fs : DirFs) (now : Int) (j : JobInfo) :
    TermRec (handleOrphanJobCore fs now j) := by
  unfold TermRec
  simp only [handleOrphanJobCore]
  simp [terminalStatus]

theorem mem_dictSetJ (d : List (String × JobInfo)) (k : String) (v : JobInfo)
    (p : String × JobInfo) (h : p ∈ dictSet d k v) : p ∈ d ∨ p.2 = v := by
  unfold dictSet at h
  split at h
  · obtain ⟨q, hq, hfq⟩ := List.mem_map.1 h
    by_cases hqk : q.1 == k
    · right
      rw [if_pos hqk] at hfq
      rw [← hfq]
    · left
      rw [if_neg hqk] at hfq
      exact hfq ▸ hq
  · rcases List.mem_append.1 h with h' | h'
    · exact Or.inl h'
    · right
      rw [List.mem_singleton.1 h']


theorem createNewJob_inv (fs : DirFs) (dir name computer : String)
    (st st1 : DirState) (r : Option JobInfo) (hst : DirInv st)
    (h : createNewJob fs dir name computer st = .ok (r, st1)) :
    DirInv st1 ∧ ∀ jb, r = some jb → RunRec jb := by
  unfold createNewJob at h
  cases hc : fs.lckCtime name with
  | none => rw [hc] at h; exact absurd h (by simp)
  | some c =>
    rw [hc] at h
    simp only [Except.ok.injEq, Prod.mk.injEq] at h
    obtain ⟨hr, hst1⟩ := h
    have hrun : RunRec (updateJobProgress fs
        { name := name, workDir := dir, computer := computer, startTime := c,
          totalStepTime := fs.totalStepTime name }) := by
      unfold RunRec
      simp
    constructor
    · rw [← hst1]
      refine ⟨?_, hst.2⟩
      intro p hp
      rcases mem_dictSetJ _ _ _ _ hp with hin | heq
      · exact hst.1 p hin
      · rw [heq]; exact hrun
    · intro jb hjb
      rw [← hr] at hjb
      rw [← Option.some.inj hjb]
      exact hrun

theorem handleNewJob_inv (cfg : Config) (fs : DirFs) (now : Int)
    (dir name computer : String) (ar : Bool) (st st1 : DirState)
    (r : Option JobInfo) (hst : DirInv st)
    (h : handleNewJob cfg fs now dir name computer ar st = .ok (r, st1)) :
    DirInv st1 ∧ ∀ jb, r = some jb → RunRec jb := by
  unfold handleNewJob at h
  split at h
  · cases ha : getLckAge fs now name with
    | error e => rw [ha] at h; exact absurd h (by simp)
    | ok age =>
      rw [ha] at h
      simp only at h
      split at h
      · simp only [Except.ok.injEq, Prod.mk.injEq] at h
        obtain ⟨hr, hst1⟩ := h
        constructor
        · rw [← hst1]
          exact ⟨hst.1, hst.2⟩
        · intro jb hjb
          rw [← hr] at hjb
          exact absurd hjb (by simp)
      · exact createNewJob_inv fs dir name computer st st1 r hst h
  · exact createNewJob_inv fs dir name computer st st1 r hst h

theorem processNew_inv (cfg : Config) (fs : DirFs) (now : Int)
    (dir computer : String) (ar : Bool) (names : List String) :
    ∀ (st : DirState) (jobs : List JobInfo), DirInv st →
    (∀ j ∈ jobs, endTimeInv j) →
    DirInv (processNew cfg fs now dir computer ar names st jobs).2.1 ∧
    (∀ j ∈ (processNew cfg fs now dir computer ar names st jobs).2.2,
      endTimeInv j) := by
  induction names with
  | nil =>
    intro st jobs hst hjobs
    simpa [processNew] using ⟨hst, hjobs⟩
  | cons name rest ih =>
    intro st jobs hst hjobs
    simp only [processNew]
    cases h : handleNewJob cfg fs now dir name computer ar st with
    | error e => simpa using ⟨hst, hjobs⟩
    | ok p =>
      obtain ⟨r, st1⟩ := p
      have hh := handleNewJob_inv cfg fs now dir name computer ar st st1 r hst h
      cases r with
      | some jb =>
        simp only
        refine ih st1 (jobs ++ [jb]) hh.1 ?_
        intro j hj
        rcases List.mem_append.1 hj with hj' | hj'
        · exact hjobs j hj'
        · rw [List.mem_singleton.1 hj']
          exact runRec_endTimeInv (hh.2 jb rfl)
      | none =>
        simp only
        exact ih st1 jobs hh.1 hjobs

theorem DirInv_replace (st : DirState) (r f : List (String × JobInfo))
    (ig : List String) (h : DirInv st)
    (hr : ∀ p ∈ r, p ∈ st.runningJobs) (hf : ∀ p ∈ f, p ∈ st.finishingJobs) :
    DirInv { runningJobs := r, finishingJobs := f, ignoredLck := ig } :=
  ⟨fun p hp => h.1 p (hr p hp), fun p hp => h.2 p (hf p hp)⟩

theorem mem_of_mem_filterPair {l : List (String × JobInfo)}
    {g : String × JobInfo → Bool} {p : String × JobInfo}
    (h : p ∈ l.filter g) : p ∈ l :=
  (List.mem_filter.1 h).1

theorem processEnded_inv (cfg : Config) (fs : DirFs) (now : Int)
    (names : List String) :
    ∀ (st : DirState) (jobs comp : List JobInfo), DirInv st →
    (∀ j ∈ jobs, endTimeInv j) →
    DirInv (processEnded cfg fs now names st jobs comp).2.1 ∧
    (∀ j ∈ (processEnded cfg fs now names st jobs comp).2.2.1, endTimeInv j) ∧
    (∃ ex, (processEnded cfg fs now names st jobs comp).2.2.2 = comp ++ ex ∧
      ∀ j ∈ ex, TermRec j) := by
  induction names with
  | nil =>
    intro st jobs comp hst hjobs
    refine ⟨hst, hjobs, [], by simp [processEnded], by simp⟩
  | cons name rest ih =>
    intro st jobs comp hst hjobs
    simp only [processEnded, dictPop]
    cases hl : st.runningJobs.lookup name with
    | some job =>
      simp only
      by_cases hT : cfg.jobEndConfirmPeriod ≤ 0
      · rw [if_pos hT]
        simp only [handleJobEnd]
        have hst1 : DirInv { st with
            runningJobs := st.runningJobs.filter (fun kv => kv.1 != name) } :=
          DirInv_replace st _ _ _ hst (fun p hp => mem_of_mem_filterPair hp)
            (fun p hp => hp)
        obtain ⟨h1, h2, ex, hex, hexT⟩ :=
          ih _ (jobs ++ [handleJobEndCore fs now job])
            (comp ++ [handleJobEndCore fs now job]) hst1 (by
              intro j hj
              rcases List.mem_append.1 hj with hj' | hj'
              · exact hjobs j hj'
              · rw [List.mem_singleton.1 hj']
                exact termRec_endTimeInv (TermRec_handleJobEndCore fs now job))
        refine ⟨h1, h2, handleJobEndCore fs now job :: ex, ?_, ?_⟩
        · rw [hex, List.append_assoc]
          rfl
        · intro j hj
          rcases List.mem_cons.1 hj with hj' | hj'
          · rw [hj']
            exact TermRec_handleJobEndCore fs now job
          · exact hexT j hj'
      · rw [if_neg hT]
        have hm : JobStatus.member "FINISHING" = none := rfl
        rw [hm]
        simp only
        refine ⟨?_, hjobs, [], by simp, by simp⟩
        exact DirInv_replace st _ _ _ hst
          (fun p hp => mem_of_mem_filterPair hp) (fun p hp => hp)
    | none =>
      simp only
      cases hl2 : st.finishingJobs.lookup name with
      | some job =>
        simp only
        have hst2 : DirInv
            { runningJobs := st.runningJobs.filter (fun kv => kv.1 != name),
              finishingJobs := st.finishingJobs.filter (fun kv => kv.1 != name),
              ignoredLck := st.ignoredLck } :=
          DirInv_replace st _ _ _ hst (fun p hp => mem_of_mem_filterPair hp)
            (fun p hp => mem_of_mem_filterPair hp)
        by_cases hT : cfg.jobEndConfirmPeriod ≤ 0
        · rw [if_pos hT]
          simp only [handleJobEnd]
          obtain ⟨h1, h2, ex, hex, hexT⟩ :=
            ih _ (jobs ++ [handleJobEndCore fs now job])
              (comp ++ [handleJobEndCore fs now job]) hst2 (by
                intro j hj
                rcases List.mem_append.1 hj with hj' | hj'
                · exact hjobs j hj'
                · rw [List.mem_singleton.1 hj']
                  exact termRec_endTimeInv (TermRec_handleJobEndCore fs now job))
          refine ⟨h1, h2, handleJobEndCore fs now job :: ex, ?_, ?_⟩
          · rw [hex, List.append_assoc]
            rfl
          · intro j hj
            rcases List.mem_cons.1 hj with hj' | hj'
            · rw [hj']
              exact TermRec_handleJobEndCore fs now job
            · exact hexT j hj'
        · rw [if_neg hT]
          have hm : JobStatus.member "FINISHING" = none := rfl
          rw [hm]
          simp only
          exact ⟨hst2, hjobs, [], by simp, by simp⟩
      | none =>
        simp only
        exact ih _ jobs comp
          (DirInv_replace st _ _ _ hst (fun p hp => mem_of_mem_filterPair hp)
            (fun p hp => mem_of_mem_filterPair hp)) hjobs

theorem finalizeLoop_inv (cfg : Config) (fs : DirFs) (now : Int)
    (entries : List (String × JobInfo)) (hent : ∀ p ∈ entries, RunRec p.2) :
    (∀ p ∈ (finalizeLoop cfg fs now entries).1, RunRec p.2) ∧
    (∀ j ∈ (finalizeLoop cfg fs now entries).2.1, TermRec j) ∧
    (∀ j ∈ (finalizeLoop cfg fs now entries).2.2, TermRec j) := by
  induction entries with
  | nil => exact ⟨by simp [finalizeLoop], by simp [finalizeLoop], by simp [finalizeLoop]⟩
  | cons e rest ih =>
    obtain ⟨name, job⟩ := e
    have hjob : RunRec job := hent (name, job) (List.mem_cons_self _ _)
    have hrest : ∀ p ∈ rest, RunRec p.2 :=
      fun p hp => hent p (List.mem_cons_of_mem _ hp)
    obtain ⟨ih1, ih2, ih3⟩ := ih hrest
    simp only [finalizeLoop]
    by_cases hT : cfg.jobEndConfirmPeriod ≤ 0
    · rw [if_pos hT]
      exact ⟨ih1, ih2, ih3⟩
    · rw [if_neg hT]
      set job1 := if job.endDetectedTime == none then
        { job with endDetectedTime := some now } else job with hjob1
      have hjob1run : RunRec job1 := by
        rw [hjob1]
        unfold RunRec at *
        split
        · exact ⟨hjob.1, hjob.2⟩
        · exact hjob
      by_cases hs : (getStatusFromFile (fs.staLines job1.name) == "success"
          || getStatusFromFile (fs.staLines job1.name) == "failed") = true
      · rw [if_pos hs]
        refine ⟨ih1, ?_, ?_⟩
        · intro j hj
          rcases List.mem_cons.1 hj with hj' | hj'
          · rw [hj']
            exact TermRec_handleJobEndCore fs now job1
          · exact ih2 j hj'
        · intro j hj
          rcases List.mem_cons.1 hj with hj' | hj'
          · rw [hj']
            exact TermRec_handleJobEndCore fs now job1
          · exact ih3 j hj'
      · rw [if_neg hs]
        by_cases he : cfg.jobEndConfirmPeriod ≤ now - job1.endDetectedTime.getD now
        · rw [if_pos he]
          have hterm : TermRec (updateOdbSize fs
              (job1.markCompleted now JobStatus.ABORTED
                "作业异常终止 - 结束确认期超时")) := by
            unfold TermRec
            simp [terminalStatus]
          refine ⟨ih1, ?_, ?_⟩
          · intro j hj
            rcases List.mem_cons.1 hj with hj' | hj'
            · rw [hj']; exact hterm
            · exact ih2 j hj'
          · intro j hj
            rcases List.mem_cons.1 hj with hj' | hj'
            · rw [hj']; exact hterm
            · exact ih3 j hj'
        · rw [if_neg he]
          refine ⟨?_, ih2, ih3⟩
          intro p hp
          rcases List.mem_cons.1 hp with hp' | hp'
          · rw [hp']
            exact hjob1run
          · exact ih1 p hp'

theorem processOrphans_inv (cfg : Config) (fs : DirFs) (now : Int)
    (names : List String) :
    ∀ (st : DirState) (jobs comp : List JobInfo), DirInv st →
    (∀ j ∈ jobs, endTimeInv j) →
    DirInv (processOrphans cfg fs now names st jobs comp).2.2.1 ∧
    (∀ j ∈ (processOrphans cfg fs now names st jobs comp).2.2.2.1,
      endTimeInv j) ∧
    (∃ ex, (processOrphans cfg fs now names st jobs comp).2.2.2.2 = comp ++ ex ∧
      ∀ j ∈ ex, TermRec j) := by
  induction names with
  | nil =>
    intro st jobs comp hst hjobs
    exact ⟨hst, hjobs, [], by simp [processOrphans], by simp⟩
  | cons name rest ih =>
    intro st jobs comp hst hjobs
    simp only [processOrphans]
    cases ha : getLckAge fs now name with
    | error e =>
      simp only
      exact ⟨hst, hjobs, [], by simp, by simp⟩
    | ok age =>
      simp only
      by_cases hage : age < cfg.lckGracePeriod
      · rw [if_pos hage]
        simp only
        exact ih st jobs comp hst hjobs
      · rw [if_neg hage]
        cases hl : st.runningJobs.lookup name with
        | none =>
          simp only
          exact ⟨hst, hjobs, [], by simp, by simp⟩
        | some job =>
          simp only [handleOrphanJob]
          have hst2 : DirInv
              { runningJobs := (dictPop st.runningJobs name).2,
                finishingJobs := st.finishingJobs,
                ignoredLck := laddSet st.ignoredLck name } :=
            DirInv_replace st _ _ _ hst
              (fun p hp => mem_of_mem_filterPair hp)
              (fun p hp => hp)
          obtain ⟨h1, h2, ex, hex, hexT⟩ :=
            ih _ (jobs ++ [handleOrphanJobCore fs now job])
              (comp ++ [handleOrphanJobCore fs now job]) hst2 (by
                intro j hj
                rcases List.mem_append.1 hj with hj' | hj'
                · exact hjobs j hj'
                · rw [List.mem_singleton.1 hj']
                  exact termRec_endTimeInv (TermRec_handleOrphanJobCore fs now job))
          refine ⟨h1, h2, handleOrphanJobCore fs now job :: ex, ?_, ?_⟩
          · rw [hex, List.append_assoc]
            rfl
          · intro j hj
            rcases List.mem_cons.1 hj with hj' | hj'
            · rw [hj']
              exact TermRec_handleOrphanJobCore fs now job
            · exact hexT j hj'

theorem lookup_mem (l : List (String × JobInfo)) (k : String) (v : JobInfo)
    (h : l.lookup k = some v) : (k, v) ∈ l := by
  induction l with
  | nil => simp [List.lookup] at h
  | cons p rest ih =>
    obtain ⟨a, b⟩ := p
    rw [List.lookup] at h
    by_cases hk : (k == a) = true
    · rw [hk] at h
      simp only [Option.some.injEq] at h
      rw [eq_of_beq hk, h]
      exact List.mem_cons_self _ _
    · rw [Bool.not_eq_true] at hk
      rw [hk] at h
      exact List.mem_cons_of_mem _ (ih h)

theorem processActive_inv (fs : DirFs) (names : List String) :
    ∀ (st : DirState) (jobs : List JobInfo), DirInv st →
    (∀ j ∈ jobs, endTimeInv j) →
    DirInv (processActive fs names st jobs).2.1 ∧
    (∀ j ∈ (processActive fs names st jobs).2.2, endTimeInv j) := by
  induction names with
  | nil =>
    intro st jobs hst hjobs
    simpa [processActive] using ⟨hst, hjobs⟩
  | cons name rest ih =>
    intro st jobs hst hjobs
    simp only [processActive]
    cases hl : st.runningJobs.lookup name with
    | none =>
      simp only
      exact ⟨hst, hjobs⟩
    | some job =>
      simp only
      have hjob : RunRec job := hst.1 _ (lookup_mem _ _ _ hl)
      refine ih _ (jobs ++ [updateJobProgress fs job]) ?_ ?_
      · refine ⟨?_, hst.2⟩
        intro p hp
        rcases mem_dictSetJ _ _ _ _ hp with hin | heq
        · exact hst.1 p hin
        · rw [heq]
          exact RunRec_updateJobProgress fs hjob
      · intro j hj
        rcases List.mem_append.1 hj with hj' | hj'
        · exact hjobs j hj'
        · rw [List.mem_singleton.1 hj']
          exact runRec_endTimeInv (RunRec_updateJobProgress fs hjob)


theorem DirInv_setIgnored (st : DirState) (ig : List String) (h : DirInv st) :
    DirInv { st with ignoredLck := ig } := ⟨h.1, h.2⟩

theorem finalizeFinishingJobs_inv (cfg : Config) (fs : DirFs) (now : Int)
    (st : DirState) (jobs comp : List JobInfo) (hst : DirInv st)
    (hjobs : ∀ j ∈ jobs, endTimeInv j) :
    DirInv (finalizeFinishingJobs cfg fs now st jobs comp).1 ∧
    (∀ j ∈ (finalizeFinishingJobs cfg fs now st jobs comp).2.1, endTimeInv j) ∧
    (∃ ex, (finalizeFinishingJobs cfg fs now st jobs comp).2.2 = comp ++ ex ∧
      ∀ j ∈ ex, TermRec j) := by
  obtain ⟨h1, h2, h3⟩ := finalizeLoop_inv cfg fs now st.finishingJobs hst.2
  unfold finalizeFinishingJobs
  refine ⟨⟨hst.1, h1⟩, ?_, (finalizeLoop cfg fs now st.finishingJobs).2.2, rfl, h3⟩
  intro j hj
  rcases List.mem_append.1 hj with hj' | hj'
  · exact hjobs j hj'
  · exact termRec_endTimeInv (h2 j hj')

theorem scanDirectory_inv (cfg : Config) (fs : DirFs) (now : Int)
    (dir computer : String) (st : DirState) (comp : List JobInfo)
    (hst : DirInv st) :
    DirInv (scanDirectory cfg fs now dir computer st comp).2.2.1 ∧
    (∀ j ∈ (scanDirectory cfg fs now dir computer st comp).2.1, endTimeInv j) ∧
    (∃ ex, (scanDirectory cfg fs now dir computer st comp).2.2.2 = comp ++ ex ∧
      ∀ j ∈ ex, TermRec j) := by
  simp only [scanDirectory]
  by_cases hd : (!fs.dirExists) = true
  · rw [if_pos hd]
    exact ⟨hst, by simp, [], by simp, by simp⟩
  · rw [if_neg hd]
    set ar := (if cfg.enableProcessDetection = true then fs.abaqusRunning else true) with har
    set cur := scanLckFiles fs.entries with hcur
    set prev := pyDedup (dictKeys st.runningJobs ++ dictKeys st.finishingJobs) with hprev
    set ig1 := ldiff st.ignoredLck (ldiff st.ignoredLck cur) with hig
    set stA := ({ runningJobs := st.runningJobs, finishingJobs := st.finishingJobs,
                  ignoredLck := ig1 } : DirState) with hstAdef
    have hstA : DirInv stA := by
      rw [hstAdef]
      exact ⟨hst.1, hst.2⟩
    have hnil : ∀ j ∈ ([] : List JobInfo), endTimeInv j :=
      fun j hj => absurd hj (List.not_mem_nil j)
    split
    case _ e stN jobsN heqN =>
      have hN := processNew_inv cfg fs now dir computer ar
        (newLckOf (ldiff cur ig1) prev) stA [] hstA hnil
      rw [heqN] at hN
      dsimp only at hN
      exact ⟨hN.1, by simp, [], by simp, by simp⟩
    case _ stN jobsN heqN =>
      have hN := processNew_inv cfg fs now dir computer ar
        (newLckOf (ldiff cur ig1) prev) stA [] hstA hnil
      rw [heqN] at hN
      dsimp only at hN
      split
      case _ e2 stE jobsE compE heqE =>
        have hE := processEnded_inv cfg fs now (endedJobsOf prev cur) stN jobsN
          comp hN.1 hN.2
        rw [heqE] at hE
        dsimp only at hE
        obtain ⟨hE1, hE2, ex1, hex1, hex1T⟩ := hE
        exact ⟨hE1, by simp, ex1, hex1, hex1T⟩
      case _ stE jobsE compE heqE =>
        have hE := processEnded_inv cfg fs now (endedJobsOf prev cur) stN jobsN
          comp hN.1 hN.2
        rw [heqE] at hE
        dsimp only at hE
        obtain ⟨hE1, hE2, ex1, hex1, hex1T⟩ := hE
        obtain ⟨hF1, hF2, ex2, hex2, hex2T⟩ :=
          finalizeFinishingJobs_inv cfg fs now stE jobsE compE hE1 hE2
        split
        · -- orphan branch taken
          split
          case _ e3 keep stO jobsO compO heqO =>
            have hO := processOrphans_inv cfg fs now (linter prev (ldiff cur ig1))
              (finalizeFinishingJobs cfg fs now stE jobsE compE).1
              (finalizeFinishingJobs cfg fs now stE jobsE compE).2.1
              (finalizeFinishingJobs cfg fs now stE jobsE compE).2.2 hF1 hF2
            rw [heqO] at hO
            dsimp only at hO
            obtain ⟨hO1, hO2, ex3, hex3, hex3T⟩ := hO
            refine ⟨hO1, by simp, ex1 ++ (ex2 ++ ex3), ?_, ?_⟩
            · rw [hex3, hex2, hex1]
              simp [List.append_assoc]
            · intro j hj
              rcases List.mem_append.1 hj with hj' | hj'
              · exact hex1T j hj'
              · rcases List.mem_append.1 hj' with hj'' | hj''
                · exact hex2T j hj''
                · exact hex3T j hj''
          case _ keep stO jobsO compO heqO =>
            have hO := processOrphans_inv cfg fs now (linter prev (ldiff cur ig1))
              (finalizeFinishingJobs cfg fs now stE jobsE compE).1
              (finalizeFinishingJobs cfg fs now stE jobsE compE).2.1
              (finalizeFinishingJobs cfg fs now stE jobsE compE).2.2 hF1 hF2
            rw [heqO] at hO
            dsimp only at hO
            obtain ⟨hO1, hO2, ex3, hex3, hex3T⟩ := hO
            split
            case _ e4 stP jobsP heqP =>
              have hP := processActive_inv fs keep stO jobsO hO1 hO2
              rw [heqP] at hP
              dsimp only at hP
              refine ⟨hP.1, by simp, ex1 ++ (ex2 ++ ex3), ?_, ?_⟩
              · rw [hex3, hex2, hex1]
                simp [List.append_assoc]
              · intro j hj
                rcases List.mem_append.1 hj with hj' | hj'
                · exact hex1T j hj'
                · rcases List.mem_append.1 hj' with hj'' | hj''
                  · exact hex2T j hj''
                  · exact hex3T j hj''
            case _ stP jobsP heqP =>
              have hP := processActive_inv fs keep stO jobsO hO1 hO2
              rw [heqP] at hP
              dsimp only at hP
              refine ⟨hP.1, hP.2, ex1 ++ (ex2 ++ ex3), ?_, ?_⟩
              · rw [hex3, hex2, hex1]
                simp [List.append_assoc]
              · intro j hj
                rcases List.mem_append.1 hj with hj' | hj'
                · exact hex1T j hj'
                · rcases List.mem_append.1 hj' with hj'' | hj''
                  · exact hex2T j hj''
                  · exact hex3T j hj''
        · -- no orphan check
          split
          case _ e3 stP jobsP heqP =>
            have hP := processActive_inv fs (linter prev (ldiff cur ig1))
              (finalizeFinishingJobs cfg fs now stE jobsE compE).1
              (finalizeFinishingJobs cfg fs now stE jobsE compE).2.1 hF1 hF2
            rw [heqP] at hP
            dsimp only at hP
            refine ⟨hP.1, by simp, ex1 ++ ex2, ?_, ?_⟩
            · rw [hex2, hex1]
              simp [List.append_assoc]
            · intro j hj
              rcases List.mem_append.1 hj with hj' | hj'
              · exact hex1T j hj'
              · exact hex2T j hj'
          case _ stP jobsP heqP =>
            have hP := processActive_inv fs (linter prev (ldiff cur ig1))
              (finalizeFinishingJobs cfg fs now stE jobsE compE).1
              (finalizeFinishingJobs cfg fs now stE jobsE compE).2.1 hF1 hF2
            rw [heqP] at hP
            dsimp only at hP
            refine ⟨hP.1, hP.2, ex1 ++ ex2, ?_, ?_⟩
            · rw [hex2, hex1]
              simp [List.append_assoc]
            · intro j hj
              rcases List.mem_append.1 hj with hj' | hj'
              · exact hex1T j hj'
              · exact hex2T j hj'

theorem scanDirsLoop_inv (cfg : Config) (fsOf : String → DirFs) (now : Int)
    (computer : String) (dirs : List (String × DirState)) :
    ∀ (allJobs comp : List JobInfo), (∀ p ∈ dirs, DirInv p.2) →
    (∀ j ∈ allJobs, endTimeInv j) →
    (∀ p ∈ (scanDirsLoop cfg fsOf now computer dirs allJobs comp).2.1,
      DirInv p.2) ∧
    (∀ j ∈ (scanDirsLoop cfg fsOf now computer dirs allJobs comp).2.2.1,
      endTimeInv j) ∧
    (∃ ex, (scanDirsLoop cfg fsOf now computer dirs allJobs comp).2.2.2 =
      comp ++ ex ∧ ∀ j ∈ ex, TermRec j) := by
  induction dirs with
  | nil =>
    intro allJobs comp hdirs hjobs
    exact ⟨by simp [scanDirsLoop], by simpa [scanDirsLoop] using hjobs,
      [], by simp [scanDirsLoop], by simp⟩
  | cons p rest ih =>
    intro allJobs comp hdirs hjobs
    obtain ⟨d, dst⟩ := p
    have hdst : DirInv dst := hdirs (d, dst) (List.mem_cons_self _ _)
    have hrest : ∀ q ∈ rest, DirInv q.2 :=
      fun q hq => hdirs q (List.mem_cons_of_mem _ hq)
    have hS := scanDirectory_inv cfg (fsOf d) now d computer dst comp hdst
    simp only [scanDirsLoop]
    split
    case _ e out dst1 comp1 heqS =>
      rw [heqS] at hS
      dsimp only at hS
      obtain ⟨hS1, hS2, ex1, hex1, hex1T⟩ := hS
      refine ⟨?_, by simp, ex1, hex1, hex1T⟩
      intro q hq
      rcases List.mem_cons.1 hq with hq' | hq'
      · rw [hq']
        exact hS1
      · exact hrest q hq'
    case _ jobs dst1 comp1 heqS =>
      rw [heqS] at hS
      dsimp only at hS
      obtain ⟨hS1, hS2, ex1, hex1, hex1T⟩ := hS
      obtain ⟨hR1, hR2, ex2, hex2, hex2T⟩ := ih (allJobs ++ jobs) comp1 hrest (by
        intro j hj
        rcases List.mem_append.1 hj with hj' | hj'
        · exact hjobs j hj'
        · exact hS2 j hj')
      refine ⟨?_, hR2, ex1 ++ ex2, ?_, ?_⟩
      · intro q hq
        rcases List.mem_cons.1 hq with hq' | hq'
        · rw [hq']
          exact hS1
        · exact hR1 q hq'
      · rw [hex2, hex1, List.append_assoc]
      · intro j hj
        rcases List.mem_append.1 hj with hj' | hj'
        · exact hex1T j hj'
        · exact hex2T j hj'

theorem refreshWatchDirs_inv (monitored : List String) (st : DetectorState)
    (h : ∀ p ∈ st.dirs, DirInv p.2) :
    ∀ p ∈ (refreshWatchDirs monitored st).dirs, DirInv p.2 := by
  intro p hp
  unfold refreshWatchDirs at hp
  simp only at hp
  rcases List.mem_append.1 hp with hp' | hp'
  · exact h p (List.mem_filter.1 hp').1
  · obtain ⟨d, _, hdp⟩ := List.mem_map.1 hp'
    rw [← hdp]
    exact ⟨fun q hq => absurd hq (List.not_mem_nil q),
      fun q hq => absurd hq (List.not_mem_nil q)⟩

/-- C9: the lifecycle invariant is preserved by every detector scan. If
every tracked record is still `RUNNING` with no `end_time` and every
completed record is terminal with `end_time` set, then after
`scan_directories` the same holds; every emitted record satisfies
"`end_time` set iff status terminal"; and `completed_jobs` only grows, by
terminal records, with the existing entries untouched — so a record moves
at most from `Running` to a terminal state and never out of one. -/
theorem detector_lifecycle_invariant (cfg : Config) (fsOf : String → DirFs)
    (monitored : List String) (now : Int) (computer : String)
    (st : DetectorState) (h : DetInv st) :
    DetInv (scanDirectories cfg fsOf monitored now computer st).2.2
  ∧ (∀ j ∈ (scanDirectories cfg fsOf monitored now computer st).2.1,
      endTimeInv j)
  ∧ (∃ ex, (scanDirectories cfg fsOf monitored now computer st).2.2.completedJobs
        = st.completedJobs ++ ex ∧ ∀ j ∈ ex, TermRec j) := by
  have hdirs := refreshWatchDirs_inv monitored st h.1
  have hL := scanDirsLoop_inv cfg fsOf now computer
    (refreshWatchDirs monitored st).dirs [] (refreshWatchDirs monitored st).completedJobs
    hdirs (fun j hj => absurd hj (List.not_mem_nil j))
  obtain ⟨hL1, hL2, ex, hex, hexT⟩ := hL
  have hcomp0 : (refreshWatchDirs monitored st).completedJobs
      = st.completedJobs := rfl
  refine ⟨⟨?_, ?_⟩, ?_, ex, ?_, hexT⟩
  · intro p hp
    exact hL1 p hp
  · intro j hj
    simp only [scanDirectories] at hj
    rw [hex, hcomp0] at hj
    rcases List.mem_append.1 hj with hj' | hj'
    · exact h.2 j hj'
    · exact hexT j hj'
  · intro j hj
    exact hL2 j hj
  · simp only [scanDirectories]
    rw [hex, hcomp0]

/-- Witness for `detector_lifecycle_invariant`: the empty detector state
over one directory holding one fresh marker. -/
theorem detector_lifecycle_invariant_witness :
    DetInv (scanDirectories ⟨true, 60, 60⟩
      (fun _ => { entries := [lckEntry "a"], lckCtime := fun _ => some 0 })
      ["d"] 100 "pc" {}).2.2 :=
  (detector_lifecycle_invariant ⟨true, 60, 60⟩
    (fun _ => { entries := [lckEntry "a"], lckCtime := fun _ => some 0 })
    ["d"] 100 "pc" {}
    ⟨fun p hp => absurd hp (List.not_mem_nil p),
     fun j hj => absurd hj (List.not_mem_nil j)⟩).1

end AbaqusGuard
